import Mathlib

/-!
Shallow embedding of the job-lifecycle core of `src/main.py`
(enterprise-browser-automation).

The embedded program is the `Job` dataclass, the logging part of
`WebAgent` (`log`, `setup`, `run_steps`) and the `JobManager`
(`create_job`, `_run_job`, `list_jobs`, `get_job`, `cancel_job`).

Modelling decisions, each traceable to the source:

* Every `await` of an executor-level operation (`agent.setup()` as a
  whole, and each `self.runner.run_debug(step)` call) is a point where
  the Python code can observe a normal result, an `Exception`, or an
  `asyncio.CancelledError` thrown into the task by `Task.cancel()`.
  An `ExecEnv` records, for each such await, which of the three
  happens (`CallOutcome`).  A `cancelled` outcome models `cancel_job`
  being invoked while the runner is suspended at that await.
* `datetime.now().strftime("%H:%M:%S")` is modelled by the oracle
  `ExecEnv.ts : Nat → String`, consumed at the k-th `WebAgent.log`
  call of the run.  `Job.created_at` is likewise an oracle input of
  `create_job`.
* Mutation of `job.status` / `job.logs` is made explicit as a trace of
  `Event`s emitted by the runner, folded into a `Job` by `applyEvent`.
  `callSetup` / `callStep` events additionally record which executor
  calls were issued (they do not change the `Job`).
* Python exception propagation is the `Option PyErr` component:
  `WebAgent.run_steps` re-raises step errors (`raise e` in the source)
  and lets `asyncio.CancelledError` pass through (it does not derive
  from `Exception`), while `JobManager._run_job` catches both.
* `str(uuid.uuid4())[:8]` is a random 8-character string with no
  uniqueness check in the source; it is modelled as an explicit id
  argument of `create_job` (an oracle input).
* The `asyncio.Task` attached to a job is modelled by the flags
  `taskDone` (the coroutine has finished, i.e. `task.done()`) and
  `cancelRequested` (`task.cancel()` was called).  Per asyncio /
  coroutine semantics, cancelling a task before its coroutine has
  first run makes `coro.throw(CancelledError)` raise at the very start
  of the body, so none of `_run_job`'s statements (including the
  `try` block and its handlers) executes: `runTask` of a job whose
  cancellation was requested before it started marks the task done
  without emitting any event.
-/

/-- Outcome of one awaited executor-level call: a normal return, a
Python `Exception` with the given `str(e)`, or an
`asyncio.CancelledError` thrown into the task. -/
inductive CallOutcome where
  | ok (result : String)
  | exc (cause : String)
  | cancelled
deriving DecidableEq

/-- An exception propagating out of an embedded Python function:
either an ordinary `Exception` (with its `str(e)`) or an
`asyncio.CancelledError`. -/
inductive PyErr where
  | exc (cause : String)
  | cancelled
deriving DecidableEq

/-- Environment of one runner execution: the outcome of the awaited
`agent.setup()` call (its `ok` payload is unused), the outcome of
`run_debug` for each 1-indexed step, and the timestamp oracle for
`WebAgent.log`. -/
structure ExecEnv where
  setup : CallOutcome
  step : Nat → CallOutcome
  ts : Nat → String

/-- One primitive effect of the runner on its job, in program order:
a write to `job.status`, an append to `job.logs`, or the issuing of an
executor-level call (`setup` / `run_debug` for step `i`). -/
inductive Event where
  | setStatus (s : String)
  | logAppend (msg : String)
  | callSetup
  | callStep (i : Nat) (step : String)
deriving DecidableEq

/-- Source `WebAgent.log`: `f"[{timestamp}] {message}"`. -/
def fmtTs (t msg : String) : String := "[" ++ t ++ "] " ++ msg

/-- A `WebAgent.log` call as an event; `n` is the index of this log
call in the run, used to consume the timestamp oracle. -/
def agentLog (env : ExecEnv) (n : Nat) (msg : String) : Event :=
  .logAppend (fmtTs (env.ts n) msg)

namespace WebAgent

/-- Source `WebAgent.setup` (lines 81-113): logs
`"Initializing Agent & Tools..."`, performs the awaited initialization
work (which can raise), and on success logs `"Agent Setup Complete."`.
Returns the emitted events, the new log-call counter and the raised
exception, if any. -/
def setup (env : ExecEnv) (n : Nat) : List Event × Nat × Option PyErr :=
  match env.setup with
  | .ok _ =>
      ([agentLog env n "Initializing Agent & Tools...", .callSetup,
        agentLog env (n+1) "Agent Setup Complete."], n+2, none)
  | .exc c =>
      ([agentLog env n "Initializing Agent & Tools...", .callSetup], n+1, some (.exc c))
  | .cancelled =>
      ([agentLog env n "Initializing Agent & Tools...", .callSetup], n+1, some .cancelled)

/-- The `for i, step in enumerate(steps, 1)` loop of
`WebAgent.run_steps` (lines 121-132), plus the trailing
`"✅ Workflow completed successfully."` log.  `i` is the 1-based index
of the next step, `n` the log-call counter.  On a step `Exception`
the error is logged and re-raised (`raise e` in the source); an
`asyncio.CancelledError` is not caught by `except Exception` and
propagates without an extra log entry. -/
def runStepsLoop (env : ExecEnv) : List String → Nat → Nat → List Event × Nat × Option PyErr
  | [], _, n => ([agentLog env n "✅ Workflow completed successfully."], n+1, none)
  | s :: rest, i, n =>
      match env.step i with
      | .ok r =>
          let t := runStepsLoop env rest (i+1) (n+2)
          (agentLog env n ("Step " ++ toString i ++ ": " ++ s) :: .callStep i s ::
             agentLog env (n+1) ("Result: " ++ r) :: t.1, t.2.1, t.2.2)
      | .exc c =>
          ([agentLog env n ("Step " ++ toString i ++ ": " ++ s), .callStep i s,
            agentLog env (n+1) ("❌ Error on step " ++ toString i ++ ": " ++ c)],
           n+2, some (.exc c))
      | .cancelled =>
          ([agentLog env n ("Step " ++ toString i ++ ": " ++ s), .callStep i s],
           n+1, some .cancelled)

/-- Source `WebAgent.run_steps` (lines 115-132).  The
`if not self.agent: await self.setup()` guard is omitted: in this
program `run_steps` is only reached from `_run_job` after a successful
`agent.setup()`, so the guard is never taken. -/
def run_steps (env : ExecEnv) (steps : List String) (n : Nat) :
    List Event × Nat × Option PyErr :=
  let t := runStepsLoop env steps 1 (n+1)
  (agentLog env n ("Starting execution of " ++ toString steps.length ++ " steps.") :: t.1,
   t.2.1, t.2.2)

end WebAgent

/-- Source `Job` dataclass (lines 29-36); the `task` handle is
modelled separately (see `SysJob`). -/
structure Job where
  id : String
  name : String
  status : String := "PENDING"
  logs : List String := []
  created_at : String
deriving DecidableEq

/-- Fold one runner event into the job: `setStatus` writes
`job.status`, `logAppend` appends to `job.logs` (`job_logger` /
`WebAgent.log` both end in `job.logs.append`), executor-call markers
change nothing. -/
def applyEvent (j : Job) : Event → Job
  | .setStatus s => { j with status := s }
  | .logAppend msg => { j with logs := j.logs ++ [msg] }
  | .callSetup => j
  | .callStep _ _ => j

/-- Fold a whole event trace into a job. -/
def applyEvents (j : Job) (es : List Event) : Job := es.foldl applyEvent j

/-- The sequence of `job.status` writes in a trace. -/
def statusWrites (es : List Event) : List String :=
  es.filterMap fun e => match e with | .setStatus s => some s | _ => none

/-- The sequence of log entries appended by a trace. -/
def logsOf (es : List Event) : List String :=
  es.filterMap fun e => match e with | .logAppend m => some m | _ => none

/-- The 1-based indices of the steps for which `run_debug` was
invoked, in call order. -/
def callsOf (es : List Event) : List Nat :=
  es.filterMap fun e => match e with | .callStep i _ => some i | _ => none

namespace JobManager

/-- Source `JobManager._run_job` (lines 149-170): set
`status = "RUNNING"`, run `agent.setup()` then `agent.run_steps`,
set `"COMPLETED"` on success; `except asyncio.CancelledError` sets
`"CANCELLED"` then appends the cancellation notice, `except Exception`
sets `"FAILED"` then appends the `"💥 Critical Failure: ..."` entry
(both via `job_logger`, without a timestamp).  Returns the event trace
and the exception escaping to the caller, if any. -/
def runJob (env : ExecEnv) (steps : List String) : List Event × Option PyErr :=
  let s := WebAgent.setup env 0
  match s.2.2 with
  | some .cancelled =>
      (Event.setStatus "RUNNING" :: s.1 ++
        [Event.setStatus "CANCELLED", Event.logAppend "⚠️ Job was cancelled by user."], none)
  | some (.exc c) =>
      (Event.setStatus "RUNNING" :: s.1 ++
        [Event.setStatus "FAILED", Event.logAppend ("💥 Critical Failure: " ++ c)], none)
  | none =>
      let r := WebAgent.run_steps env steps s.2.1
      match r.2.2 with
      | none =>
          (Event.setStatus "RUNNING" :: s.1 ++ r.1 ++ [Event.setStatus "COMPLETED"], none)
      | some .cancelled =>
          (Event.setStatus "RUNNING" :: s.1 ++ r.1 ++
            [Event.setStatus "CANCELLED", Event.logAppend "⚠️ Job was cancelled by user."], none)
      | some (.exc c) =>
          (Event.setStatus "RUNNING" :: s.1 ++ r.1 ++
            [Event.setStatus "FAILED", Event.logAppend ("💥 Critical Failure: " ++ c)], none)

end JobManager

/-- A registry entry: the `Job` record together with the state of the
`asyncio.Task` created for it by `create_job` (which captures `steps`
in the `_run_job` closure). -/
structure SysJob where
  job : Job
  steps : List String
  taskDone : Bool := false
  cancelRequested : Bool := false
deriving DecidableEq

/-- Source `JobManager.__init__`: `self.jobs: Dict[str, Job] = {}`,
modelled as an insertion-ordered association list (Python dicts keep
insertion order; assignment to an existing key replaces the value in
place). -/
structure JobManager where
  jobs : List (String × SysJob) := []
deriving DecidableEq

/-- Python dict assignment `d[k] = v`: replace in place if the key is
present, otherwise append. -/
def dictInsert (m : List (String × SysJob)) (k : String) (v : SysJob) :
    List (String × SysJob) :=
  if m.any (fun p => p.1 = k) then
    m.map (fun p => if p.1 = k then (k, v) else p)
  else
    m ++ [(k, v)]

/-- Python dict lookup `d.get(k)`. -/
def dictGet (m : List (String × SysJob)) (k : String) : Option SysJob :=
  (m.find? (fun p => p.1 == k)).map (·.2)

/-- The key sequence of the registry. -/
def keysOf (m : JobManager) : List String := m.jobs.map (·.1)

namespace JobManager

/-- Source `JobManager.create_job` (lines 139-147): builds a
`Job(id=job_id, name=name)` (status `"PENDING"`, empty logs), stores
it under `job_id`, spawns the `_run_job` task (capturing `steps`) and
returns the id.  `newId` models `str(uuid.uuid4())[:8]` and `now`
models `datetime.now().strftime("%H:%M:%S")` (oracle inputs). -/
def create_job (m : JobManager) (newId now name : String) (steps : List String) :
    JobManager × String :=
  let job : Job := { id := newId, name := name, created_at := now }
  (⟨dictInsert m.jobs newId ⟨job, steps, false, false⟩⟩, newId)

/-- Source `JobManager.list_jobs` (lines 172-173): `self.jobs.values()`
in insertion order; no mutation. -/
def list_jobs (m : JobManager) : List Job := m.jobs.map (fun p => p.2.job)

/-- Source `JobManager.get_job` (lines 175-176): `self.jobs.get(job_id)`;
no mutation, `none` on an unknown id. -/
def get_job (m : JobManager) (job_id : String) : Option Job :=
  (dictGet m.jobs job_id).map (·.job)

/-- Source `JobManager.cancel_job` (lines 178-183): if the job exists
and its task is not done, call `task.cancel()` (modelled by setting
`cancelRequested`) and return `True`; otherwise return `False` and
change nothing.  (`job.task` is always set: `create_job` assigns it
before any other operation can observe the job.) -/
def cancel_job (m : JobManager) (job_id : String) : JobManager × Bool :=
  match dictGet m.jobs job_id with
  | none => (m, false)
  | some sj =>
      if sj.taskDone then (m, false)
      else (⟨dictInsert m.jobs job_id { sj with cancelRequested := true }⟩, true)

/-- The `asyncio.Task` of job `job_id` running to completion.  If
cancellation was requested before the coroutine first ran, the body of
`_run_job` never executes (`coro.throw(CancelledError)` raises at the
start of the body, outside the `try`): the task ends cancelled and the
job record is untouched.  Otherwise the `_run_job` trace is applied to
the job.  Either way the task is then done. -/
def runTask (m : JobManager) (job_id : String) (env : ExecEnv) : JobManager :=
  match dictGet m.jobs job_id with
  | none => m
  | some sj =>
      if sj.taskDone then m
      else if sj.cancelRequested then
        ⟨dictInsert m.jobs job_id { sj with taskDone := true }⟩
      else
        ⟨dictInsert m.jobs job_id
          { sj with job := applyEvents sj.job (runJob env sj.steps).1, taskDone := true }⟩

end JobManager

/-- One operation on the manager state: the public `JobManager`
methods plus the scheduler running a job's task.  `get` and `listAll`
perform no assignment in the source, so their state effect is the
identity. -/
inductive MgrOp where
  | create (id now name : String) (steps : List String)
  | cancel (id : String)
  | run (id : String) (env : ExecEnv)
  | get (id : String)
  | listAll

/-- State effect of one manager operation. -/
def applyOp (m : JobManager) : MgrOp → JobManager
  | .create id now name steps => (JobManager.create_job m id now name steps).1
  | .cancel id => (JobManager.cancel_job m id).1
  | .run id env => JobManager.runTask m id env
  | .get _ => m
  | .listAll => m

/-! ### Derived views -/

/-- The job obtained by letting the runner execute to completion on a
job record, i.e. the observable result of `_run_job`'s mutations. -/
def runFinal (env : ExecEnv) (steps : List String) (j : Job) : Job :=
  applyEvents j (JobManager.runJob env steps).1

/-- Spec-side description of the per-step log entries promised by §4.3
and §8 of the spec: for each step, one `"Step i: ..."` entry
immediately followed by one `"Result: ..."` entry, in step order
(`i` is the 1-based index of the first listed step, `n` the position
in the run's sequence of timestamped log calls). -/
def specStepLogs (env : ExecEnv) (res : Nat → String) :
    List String → Nat → Nat → List String
  | [], _, _ => []
  | s :: rest, i, n =>
      fmtTs (env.ts n) ("Step " ++ toString i ++ ": " ++ s) ::
      fmtTs (env.ts (n+1)) ("Result: " ++ res i) ::
      specStepLogs env res rest (i+1) (n+2)

/-- Closed form of the events emitted by the `run_steps` loop for a
prefix of steps that all succeed. -/
def pairEvents (env : ExecEnv) (res : Nat → String) :
    List String → Nat → Nat → List Event
  | [], _, _ => []
  | s :: rest, i, n =>
      agentLog env n ("Step " ++ toString i ++ ": " ++ s) :: .callStep i s ::
      agentLog env (n+1) ("Result: " ++ res i) :: pairEvents env res rest (i+1) (n+2)

/-! ### Structural lemmas about event traces -/

@[simp]
theorem statusWrites_nil : statusWrites [] = [] := rfl

@[simp]
theorem statusWrites_append (es fs : List Event) :
    statusWrites (es ++ fs) = statusWrites es ++ statusWrites fs :=
  List.filterMap_append _ _ _

@[simp]
theorem logsOf_append (es fs : List Event) :
    logsOf (es ++ fs) = logsOf es ++ logsOf fs :=
  List.filterMap_append _ _ _

@[simp]
theorem callsOf_append (es fs : List Event) :
    callsOf (es ++ fs) = callsOf es ++ callsOf fs :=
  List.filterMap_append _ _ _

@[simp]
theorem applyEvents_nil (j : Job) : applyEvents j [] = j := rfl

@[simp]
theorem applyEvents_cons (j : Job) (e : Event) (es : List Event) :
    applyEvents j (e :: es) = applyEvents (applyEvent j e) es := rfl

theorem applyEvents_append (j : Job) (es fs : List Event) :
    applyEvents j (es ++ fs) = applyEvents (applyEvents j es) fs :=
  List.foldl_append _ _ _ _

theorem logs_applyEvents (j : Job) (es : List Event) :
    (applyEvents j es).logs = j.logs ++ logsOf es := by
  induction es generalizing j with
  | nil => simp [logsOf]
  | cons e es ih =>
      rw [applyEvents_cons, ih]
      cases e <;> simp [applyEvent, logsOf, List.filterMap_cons]

theorem status_applyEvents_of_nil (j : Job) (es : List Event)
    (h : statusWrites es = []) : (applyEvents j es).status = j.status := by
  induction es generalizing j with
  | nil => rfl
  | cons e es ih =>
      cases e with
      | setStatus s => simp [statusWrites] at h
      | logAppend m => exact ih _ (by simpa [statusWrites] using h)
      | callSetup => exact ih _ (by simpa [statusWrites] using h)
      | callStep i s => exact ih _ (by simpa [statusWrites] using h)

@[simp]
theorem statusWrites_cons_set (s : String) (es : List Event) :
    statusWrites (.setStatus s :: es) = s :: statusWrites es := rfl

@[simp]
theorem statusWrites_cons_log (m : String) (es : List Event) :
    statusWrites (.logAppend m :: es) = statusWrites es := rfl

@[simp]
theorem statusWrites_cons_callSetup (es : List Event) :
    statusWrites (.callSetup :: es) = statusWrites es := rfl

@[simp]
theorem statusWrites_cons_callStep (i : Nat) (s : String) (es : List Event) :
    statusWrites (.callStep i s :: es) = statusWrites es := rfl

@[simp]
theorem logsOf_nil : logsOf [] = [] := rfl

@[simp]
theorem logsOf_cons_set (s : String) (es : List Event) :
    logsOf (.setStatus s :: es) = logsOf es := rfl

@[simp]
theorem logsOf_cons_log (m : String) (es : List Event) :
    logsOf (.logAppend m :: es) = m :: logsOf es := rfl

@[simp]
theorem logsOf_cons_callSetup (es : List Event) :
    logsOf (.callSetup :: es) = logsOf es := rfl

@[simp]
theorem logsOf_cons_callStep (i : Nat) (s : String) (es : List Event) :
    logsOf (.callStep i s :: es) = logsOf es := rfl

@[simp]
theorem callsOf_nil : callsOf [] = [] := rfl

@[simp]
theorem callsOf_cons_set (s : String) (es : List Event) :
    callsOf (.setStatus s :: es) = callsOf es := rfl

@[simp]
theorem callsOf_cons_log (m : String) (es : List Event) :
    callsOf (.logAppend m :: es) = callsOf es := rfl

@[simp]
theorem callsOf_cons_callSetup (es : List Event) :
    callsOf (.callSetup :: es) = callsOf es := rfl

@[simp]
theorem callsOf_cons_callStep (i : Nat) (s : String) (es : List Event) :
    callsOf (.callStep i s :: es) = i :: callsOf es := rfl

@[simp]
theorem agentLog_eq (env : ExecEnv) (n : Nat) (msg : String) :
    agentLog env n msg = .logAppend (fmtTs (env.ts n) msg) := rfl

/-! ### Characterization of the WebAgent layer -/

theorem statusWrites_setup (env : ExecEnv) (n : Nat) :
    statusWrites (WebAgent.setup env n).1 = [] := by
  cases h : env.setup <;> simp [WebAgent.setup, h]

theorem statusWrites_runStepsLoop (env : ExecEnv) (rest : List String) (i n : Nat) :
    statusWrites (WebAgent.runStepsLoop env rest i n).1 = [] := by
  induction rest generalizing i n with
  | nil => simp [WebAgent.runStepsLoop]
  | cons s rest ih =>
      cases h : env.step i <;> simp [WebAgent.runStepsLoop, h, ih]

theorem statusWrites_run_steps (env : ExecEnv) (steps : List String) (n : Nat) :
    statusWrites (WebAgent.run_steps env steps n).1 = [] := by
  simp [WebAgent.run_steps, statusWrites_runStepsLoop]

theorem statusWrites_pairEvents (env : ExecEnv) (res : Nat → String)
    (l : List String) : ∀ i n, statusWrites (pairEvents env res l i n) = [] := by
  induction l with
  | nil => intro i n; simp [pairEvents]
  | cons s rest ih => intro i n; simp [pairEvents, ih]

theorem logsOf_pairEvents (env : ExecEnv) (res : Nat → String)
    (l : List String) : ∀ i n, logsOf (pairEvents env res l i n) = specStepLogs env res l i n := by
  induction l with
  | nil => intro i n; simp [pairEvents, specStepLogs]
  | cons s rest ih => intro i n; simp [pairEvents, specStepLogs, ih]

theorem callsOf_pairEvents (env : ExecEnv) (res : Nat → String)
    (l : List String) : ∀ i n, callsOf (pairEvents env res l i n) = List.range' i l.length := by
  induction l with
  | nil => intro i n; simp [pairEvents]
  | cons s rest ih => intro i n; simp [pairEvents, ih, List.range'_succ]


theorem runStepsLoop_cons_ok (env : ExecEnv) (y : String) (l : List String)
    (i n : Nat) (r : String) (hi : env.step i = .ok r) :
    WebAgent.runStepsLoop env (y :: l) i n =
      (agentLog env n ("Step " ++ toString i ++ ": " ++ y) :: .callStep i y ::
         agentLog env (n+1) ("Result: " ++ r) :: (WebAgent.runStepsLoop env l (i+1) (n+2)).1,
       (WebAgent.runStepsLoop env l (i+1) (n+2)).2.1,
       (WebAgent.runStepsLoop env l (i+1) (n+2)).2.2) := by
  simp [WebAgent.runStepsLoop, hi]

theorem runStepsLoop_ok (env : ExecEnv) (res : Nat → String) (rest : List String) :
    ∀ i n, (∀ j, i ≤ j → j < i + rest.length → env.step j = .ok (res j)) →
      WebAgent.runStepsLoop env rest i n =
        (pairEvents env res rest i n ++
           [agentLog env (n + 2 * rest.length) "✅ Workflow completed successfully."],
         n + 2 * rest.length + 1, none) := by
  induction rest with
  | nil => intro i n _; simp [WebAgent.runStepsLoop, pairEvents]
  | cons s rest ih =>
      intro i n h
      have hi : env.step i = .ok (res i) := h i le_rfl (by simp)
      have hrec := ih (i+1) (n+2) (fun j h1 h2 => h j (by omega) (by simp; omega))
      have e2 : n + 2 + 2 * rest.length = n + 2 * (rest.length + 1) := by omega
      simp only [List.length_cons]
      rw [runStepsLoop_cons_ok env s rest i n (res i) hi, hrec, e2]
      simp [pairEvents]

theorem runStepsLoop_exc (env : ExecEnv) (res : Nat → String) (c : String)
    (pre : List String) (s : String) (post : List String) :
    ∀ i n, (∀ j, i ≤ j → j < i + pre.length → env.step j = .ok (res j)) →
      env.step (i + pre.length) = .exc c →
      WebAgent.runStepsLoop env (pre ++ s :: post) i n =
        (pairEvents env res pre i n ++
           [agentLog env (n + 2 * pre.length)
              ("Step " ++ toString (i + pre.length) ++ ": " ++ s),
            .callStep (i + pre.length) s,
            agentLog env (n + 2 * pre.length + 1)
              ("❌ Error on step " ++ toString (i + pre.length) ++ ": " ++ c)],
         n + 2 * pre.length + 2, some (.exc c)) := by
  induction pre with
  | nil =>
      intro i n _ hk
      simp only [List.nil_append, List.length_nil, Nat.add_zero, Nat.mul_zero] at hk ⊢
      simp [WebAgent.runStepsLoop, hk, pairEvents]
  | cons x pre ih =>
      intro i n h hk
      have hi : env.step i = .ok (res i) := h i le_rfl (by simp)
      have hk' : env.step (i + 1 + pre.length) = .exc c := by
        have hh : i + 1 + pre.length = i + (x :: pre).length := by simp; omega
        rw [hh]; exact hk
      have hrec := ih (i+1) (n+2) (fun j h1 h2 => h j (by omega) (by simp; omega)) hk'
      have e1 : i + 1 + pre.length = i + (pre.length + 1) := by omega
      have e2 : n + 2 + 2 * pre.length = n + 2 * (pre.length + 1) := by omega
      simp only [List.length_cons, List.cons_append]
      rw [runStepsLoop_cons_ok env x (pre ++ s :: post) i n (res i) hi, hrec, e1, e2]
      simp [pairEvents]

theorem runStepsLoop_cancelled (env : ExecEnv) (res : Nat → String)
    (pre : List String) (s : String) (post : List String) :
    ∀ i n, (∀ j, i ≤ j → j < i + pre.length → env.step j = .ok (res j)) →
      env.step (i + pre.length) = .cancelled →
      WebAgent.runStepsLoop env (pre ++ s :: post) i n =
        (pairEvents env res pre i n ++
           [agentLog env (n + 2 * pre.length)
              ("Step " ++ toString (i + pre.length) ++ ": " ++ s),
            .callStep (i + pre.length) s],
         n + 2 * pre.length + 1, some .cancelled) := by
  induction pre with
  | nil =>
      intro i n _ hk
      simp only [List.nil_append, List.length_nil, Nat.add_zero, Nat.mul_zero] at hk ⊢
      simp [WebAgent.runStepsLoop, hk, pairEvents]
  | cons x pre ih =>
      intro i n h hk
      have hi : env.step i = .ok (res i) := h i le_rfl (by simp)
      have hk' : env.step (i + 1 + pre.length) = .cancelled := by
        have hh : i + 1 + pre.length = i + (x :: pre).length := by simp; omega
        rw [hh]; exact hk
      have hrec := ih (i+1) (n+2) (fun j h1 h2 => h j (by omega) (by simp; omega)) hk'
      have e1 : i + 1 + pre.length = i + (pre.length + 1) := by omega
      have e2 : n + 2 + 2 * pre.length = n + 2 * (pre.length + 1) := by omega
      simp only [List.length_cons, List.cons_append]
      rw [runStepsLoop_cons_ok env x (pre ++ s :: post) i n (res i) hi, hrec, e1, e2]
      simp [pairEvents]

/-! ### Characterization of the runner `_run_job` -/

theorem runJob_eq_setup_exc (env : ExecEnv) (steps : List String) (c : String)
    (h : env.setup = .exc c) :
    JobManager.runJob env steps =
      ([.setStatus "RUNNING", .logAppend (fmtTs (env.ts 0) "Initializing Agent & Tools..."),
        .callSetup, .setStatus "FAILED", .logAppend ("💥 Critical Failure: " ++ c)], none) := by
  simp [JobManager.runJob, WebAgent.setup, h]

theorem runJob_eq_setup_cancelled (env : ExecEnv) (steps : List String)
    (h : env.setup = .cancelled) :
    JobManager.runJob env steps =
      ([.setStatus "RUNNING", .logAppend (fmtTs (env.ts 0) "Initializing Agent & Tools..."),
        .callSetup, .setStatus "CANCELLED", .logAppend "⚠️ Job was cancelled by user."], none) := by
  simp [JobManager.runJob, WebAgent.setup, h]

theorem runJob_eq_completed (env : ExecEnv) (steps : List String) (r0 : String)
    (h : env.setup = .ok r0)
    (hr : (WebAgent.runStepsLoop env steps 1 3).2.2 = none) :
    JobManager.runJob env steps =
      (Event.setStatus "RUNNING" ::
         .logAppend (fmtTs (env.ts 0) "Initializing Agent & Tools...") ::
         .callSetup ::
         .logAppend (fmtTs (env.ts 1) "Agent Setup Complete.") ::
         .logAppend (fmtTs (env.ts 2)
           ("Starting execution of " ++ toString steps.length ++ " steps.")) ::
         ((WebAgent.runStepsLoop env steps 1 3).1 ++ [.setStatus "COMPLETED"]), none) := by
  simp [JobManager.runJob, WebAgent.setup, WebAgent.run_steps, h, hr]

theorem runJob_eq_step_exc (env : ExecEnv) (steps : List String) (r0 c : String)
    (h : env.setup = .ok r0)
    (hr : (WebAgent.runStepsLoop env steps 1 3).2.2 = some (.exc c)) :
    JobManager.runJob env steps =
      (Event.setStatus "RUNNING" ::
         .logAppend (fmtTs (env.ts 0) "Initializing Agent & Tools...") ::
         .callSetup ::
         .logAppend (fmtTs (env.ts 1) "Agent Setup Complete.") ::
         .logAppend (fmtTs (env.ts 2)
           ("Starting execution of " ++ toString steps.length ++ " steps.")) ::
         ((WebAgent.runStepsLoop env steps 1 3).1 ++
            [.setStatus "FAILED", .logAppend ("💥 Critical Failure: " ++ c)]), none) := by
  simp [JobManager.runJob, WebAgent.setup, WebAgent.run_steps, h, hr]

theorem runJob_eq_step_cancelled (env : ExecEnv) (steps : List String) (r0 : String)
    (h : env.setup = .ok r0)
    (hr : (WebAgent.runStepsLoop env steps 1 3).2.2 = some .cancelled) :
    JobManager.runJob env steps =
      (Event.setStatus "RUNNING" ::
         .logAppend (fmtTs (env.ts 0) "Initializing Agent & Tools...") ::
         .callSetup ::
         .logAppend (fmtTs (env.ts 1) "Agent Setup Complete.") ::
         .logAppend (fmtTs (env.ts 2)
           ("Starting execution of " ++ toString steps.length ++ " steps.")) ::
         ((WebAgent.runStepsLoop env steps 1 3).1 ++
            [.setStatus "CANCELLED", .logAppend "⚠️ Job was cancelled by user."]), none) := by
  simp [JobManager.runJob, WebAgent.setup, WebAgent.run_steps, h, hr]

/-! ### Lemmas about the registry dictionary -/

theorem any_key_iff (m : List (String × SysJob)) (k : String) :
    (m.any (fun p => p.1 = k)) = true ↔ k ∈ m.map (·.1) := by
  simp [List.any_eq_true, List.mem_map]

theorem dictInsert_cons_eq (p : String × SysJob) (m : List (String × SysJob))
    (k : String) (v : SysJob) (h : p.1 = k) :
    dictInsert (p :: m) k v =
      (k, v) :: m.map (fun q => if q.1 = k then (k, v) else q) := by
  simp [dictInsert, List.any_cons, h]

theorem dictInsert_cons_ne (p : String × SysJob) (m : List (String × SysJob))
    (k : String) (v : SysJob) (h : ¬p.1 = k) :
    dictInsert (p :: m) k v = p :: dictInsert m k v := by
  by_cases hm : (m.any (fun q => q.1 = k)) = true
  · simp [dictInsert, List.any_cons, h, hm]
  · simp [dictInsert, List.any_cons, h, hm]

theorem dictGet_nil (k : String) : dictGet [] k = none := rfl

theorem dictGet_cons_eq (p : String × SysJob) (m : List (String × SysJob))
    (k : String) (h : p.1 = k) : dictGet (p :: m) k = some p.2 := by
  simp [dictGet, List.find?_cons_of_pos, h]

theorem dictGet_cons_ne (p : String × SysJob) (m : List (String × SysJob))
    (k : String) (h : ¬p.1 = k) : dictGet (p :: m) k = dictGet m k := by
  have : (p.1 == k) = false := by simpa using h
  simp [dictGet, List.find?_cons_of_neg, this]

theorem dictGet_insert_self (m : List (String × SysJob)) (k : String) (v : SysJob) :
    dictGet (dictInsert m k v) k = some v := by
  induction m with
  | nil => simp [dictInsert, dictGet]
  | cons p m ih =>
      by_cases hp : p.1 = k
      · rw [dictInsert_cons_eq p m k v hp]
        exact dictGet_cons_eq _ _ _ rfl
      · rw [dictInsert_cons_ne p m k v hp, dictGet_cons_ne p _ k hp]
        exact ih

theorem dictGet_map_replace (m : List (String × SysJob)) (k k' : String) (v : SysJob)
    (h : ¬k' = k) :
    dictGet (m.map (fun q => if q.1 = k then (k, v) else q)) k' = dictGet m k' := by
  induction m with
  | nil => rfl
  | cons p m ih =>
      by_cases hp : p.1 = k
      · rw [List.map_cons, if_pos hp, dictGet_cons_ne _ _ _ (fun he => h he.symm),
          dictGet_cons_ne p m k' (fun he => h (hp ▸ he).symm)]
        exact ih
      · by_cases hp' : p.1 = k'
        · rw [List.map_cons, if_neg hp, dictGet_cons_eq p _ k' hp', dictGet_cons_eq p m k' hp']
        · rw [List.map_cons, if_neg hp, dictGet_cons_ne p _ k' hp', dictGet_cons_ne p m k' hp']
          exact ih

theorem dictGet_insert_ne (m : List (String × SysJob)) (k k' : String) (v : SysJob)
    (h : ¬k' = k) : dictGet (dictInsert m k v) k' = dictGet m k' := by
  induction m with
  | nil =>
      rw [show dictInsert [] k v = [(k, v)] from rfl,
        dictGet_cons_ne _ _ _ (fun he => h he.symm)]
  | cons p m ih =>
      by_cases hp : p.1 = k
      · rw [dictInsert_cons_eq p m k v hp,
          dictGet_cons_ne _ _ _ (fun he => h he.symm),
          dictGet_map_replace m k k' v h, dictGet_cons_ne p m k' (fun he => h (hp ▸ he).symm)]
      · by_cases hp' : p.1 = k'
        · rw [dictInsert_cons_ne p m k v hp, dictGet_cons_eq _ _ _ hp', dictGet_cons_eq p m k' hp']
        · rw [dictInsert_cons_ne p m k v hp, dictGet_cons_ne _ _ _ hp', dictGet_cons_ne p m k' hp']
          exact ih

theorem keys_map_replace (m : List (String × SysJob)) (k : String) (v : SysJob) :
    (m.map (fun q => if q.1 = k then (k, v) else q)).map (·.1) = m.map (·.1) := by
  induction m with
  | nil => rfl
  | cons p m ih =>
      by_cases hp : p.1 = k
      · simp only [List.map_cons, if_pos hp, ih]; rw [hp]
      · simp only [List.map_cons, if_neg hp, ih]

theorem keys_dictInsert (m : List (String × SysJob)) (k : String) (v : SysJob) :
    (dictInsert m k v).map (·.1) =
      if k ∈ m.map (·.1) then m.map (·.1) else m.map (·.1) ++ [k] := by
  by_cases h : k ∈ m.map (·.1)
  · rw [if_pos h, dictInsert, if_pos ((any_key_iff m k).mpr h), keys_map_replace]
  · rw [if_neg h, dictInsert,
      if_neg (fun ha => h ((any_key_iff m k).mp ha))]
    simp

theorem dictInsert_fresh (m : List (String × SysJob)) (k : String) (v : SysJob)
    (h : k ∉ m.map (·.1)) : dictInsert m k v = m ++ [(k, v)] := by
  rw [dictInsert, if_neg (fun ha => h ((any_key_iff m k).mp ha))]

theorem dictGet_none_of_not_mem (m : List (String × SysJob)) (k : String)
    (h : k ∉ m.map (·.1)) : dictGet m k = none := by
  induction m with
  | nil => rfl
  | cons p m ih =>
      rw [dictGet_cons_ne p m k (fun he => h (by simp [he]))]
      exact ih (fun hm => h (List.mem_cons_of_mem _ hm))

theorem dictGet_some_mem (m : List (String × SysJob)) (k : String) (v : SysJob)
    (h : dictGet m k = some v) : k ∈ m.map (·.1) := by
  by_contra hk
  rw [dictGet_none_of_not_mem m k hk] at h
  exact Option.noConfusion h

/-! ### Status of a folded trace -/

theorem status_applyEvents_concat_set (j : Job) (es : List Event) (t : String) :
    (applyEvents j (es ++ [.setStatus t])).status = t := by
  rw [applyEvents_append]; rfl

theorem status_applyEvents_concat_set_log (j : Job) (es : List Event) (t msg : String) :
    (applyEvents j (es ++ [.setStatus t, .logAppend msg])).status = t := by
  rw [applyEvents_append]; rfl

/-- Every execution of the runner body writes exactly the status
sequence `RUNNING` followed by one terminal status. -/
theorem statusWrites_runJob (env : ExecEnv) (steps : List String) :
    statusWrites (JobManager.runJob env steps).1 = ["RUNNING", "COMPLETED"] ∨
    statusWrites (JobManager.runJob env steps).1 = ["RUNNING", "FAILED"] ∨
    statusWrites (JobManager.runJob env steps).1 = ["RUNNING", "CANCELLED"] := by
  cases hs : env.setup with
  | ok r0 =>
      rcases hr : (WebAgent.runStepsLoop env steps 1 3).2.2 with _ | pe
      · rw [runJob_eq_completed env steps r0 hs hr]
        left; simp [statusWrites_runStepsLoop]
      · cases pe with
        | exc c =>
            rw [runJob_eq_step_exc env steps r0 c hs hr]
            right; left; simp [statusWrites_runStepsLoop]
        | cancelled =>
            rw [runJob_eq_step_cancelled env steps r0 hs hr]
            right; right; simp [statusWrites_runStepsLoop]
  | exc c => rw [runJob_eq_setup_exc env steps c hs]; right; left; rfl
  | cancelled => rw [runJob_eq_setup_cancelled env steps hs]; right; right; rfl

/-- The runner body never lets an exception escape (`_run_job` catches
both `asyncio.CancelledError` and `Exception`). -/
theorem runJob_no_raise (env : ExecEnv) (steps : List String) :
    (JobManager.runJob env steps).2 = none := by
  cases hs : env.setup with
  | ok r0 =>
      rcases hr : (WebAgent.runStepsLoop env steps 1 3).2.2 with _ | pe
      · rw [runJob_eq_completed env steps r0 hs hr]
      · cases pe with
        | exc c => rw [runJob_eq_step_exc env steps r0 c hs hr]
        | cancelled => rw [runJob_eq_step_cancelled env steps r0 hs hr]
  | exc c => rw [runJob_eq_setup_exc env steps c hs]
  | cancelled => rw [runJob_eq_setup_cancelled env steps hs]

/-! ### Claim C1 -/

/-- C1: every job created by `create_job` starts with status
`"PENDING"`, and the sequence of status writes performed by its runner
is exactly `["RUNNING", t]` for one terminal
`t ∈ {COMPLETED, FAILED, CANCELLED}` — so every write is an edge of
the state machine `PENDING → RUNNING → {COMPLETED, FAILED, CANCELLED}`,
no terminal status is reached without `RUNNING` being written first,
and nothing is written after a terminal status.  (A job whose task is
cancelled before the runner body first runs sees no status write at
all, which also violates no edge; see `c7` for that case.) -/
theorem c1_state_machine (env : ExecEnv) (steps : List String)
    (m : JobManager) (id now name : String) :
    JobManager.get_job (JobManager.create_job m id now name steps).1 id =
      some { id := id, name := name, status := "PENDING", logs := [], created_at := now } ∧
    (statusWrites (JobManager.runJob env steps).1 = ["RUNNING", "COMPLETED"] ∨
     statusWrites (JobManager.runJob env steps).1 = ["RUNNING", "FAILED"] ∨
     statusWrites (JobManager.runJob env steps).1 = ["RUNNING", "CANCELLED"]) :=
  ⟨by simp [JobManager.get_job, JobManager.create_job, dictGet_insert_self],
   statusWrites_runJob env steps⟩

/-! ### Claim C5 -/

/-- C5: for every executor behaviour (setup or any step failing with
any error, including cancellation), `_run_job` raises nothing to its
caller: its result exception component is always `none`, and the
failure is reported solely by the status writes — exactly a `RUNNING`
write followed by one terminal-status write on the job. -/
theorem c5_runner_never_raises (env : ExecEnv) (steps : List String) :
    (JobManager.runJob env steps).2 = none ∧
    ∃ t, (t = "COMPLETED" ∨ t = "FAILED" ∨ t = "CANCELLED") ∧
      statusWrites (JobManager.runJob env steps).1 = ["RUNNING", t] := by
  refine ⟨runJob_no_raise env steps, ?_⟩
  rcases statusWrites_runJob env steps with h | h | h
  · exact ⟨"COMPLETED", Or.inl rfl, h⟩
  · exact ⟨"FAILED", Or.inr (Or.inl rfl), h⟩
  · exact ⟨"CANCELLED", Or.inr (Or.inr rfl), h⟩

/-! ### Claim C2 -/

/-- C2: if setup succeeds and every `executeStep` call succeeds (and
no cancellation is delivered at any await), the final job state is
`COMPLETED` and its log is exactly the setup preamble followed by one
`"Step i: ..."` entry immediately followed by one `"Result: ..."`
entry for each step `i = 1..N` in order, followed by the completion
entry; moreover `run_debug` is called exactly once per step, in order.
For `N = 0` the log degenerates to preamble plus completion and the
job is immediately `COMPLETED`. -/
theorem c2_all_steps_succeed (env : ExecEnv) (steps : List String) (res : Nat → String)
    (r0 id name ca : String)
    (hsetup : env.setup = .ok r0)
    (hsteps : ∀ i, 1 ≤ i → i ≤ steps.length → env.step i = .ok (res i)) :
    (runFinal env steps { id := id, name := name, created_at := ca }).status = "COMPLETED" ∧
    (runFinal env steps { id := id, name := name, created_at := ca }).logs =
      fmtTs (env.ts 0) "Initializing Agent & Tools..." ::
      fmtTs (env.ts 1) "Agent Setup Complete." ::
      fmtTs (env.ts 2) ("Starting execution of " ++ toString steps.length ++ " steps.") ::
      (specStepLogs env res steps 1 3 ++
        [fmtTs (env.ts (3 + 2 * steps.length)) "✅ Workflow completed successfully."]) ∧
    callsOf (JobManager.runJob env steps).1 = List.range' 1 steps.length := by
  have hloop := runStepsLoop_ok env res steps 1 3 (fun j h1 h2 => hsteps j h1 (by omega))
  have hr : (WebAgent.runStepsLoop env steps 1 3).2.2 = none := by rw [hloop]
  have htr := runJob_eq_completed env steps r0 hsetup hr
  refine ⟨?_, ?_, ?_⟩
  · rw [runFinal, htr]
    simp only [← List.cons_append]
    exact status_applyEvents_concat_set _ _ _
  · rw [runFinal, htr, logs_applyEvents]
    rw [hloop]
    simp [logsOf_pairEvents]
  · rw [htr, hloop]
    simp [callsOf_pairEvents]

/-- Concrete instance of `c2_all_steps_succeed`: the spec's §8 example
scenario (two succeeding steps) ends `COMPLETED` with both steps
executed in order. -/
theorem c2_all_steps_succeed_witness :
    (runFinal ⟨.ok "ready", fun i => .ok ("r" ++ toString i), fun n => toString n⟩
        ["open page", "click button"]
        { id := "j1", name := "demo", created_at := "c" }).status = "COMPLETED" ∧
    callsOf (JobManager.runJob
        ⟨.ok "ready", fun i => .ok ("r" ++ toString i), fun n => toString n⟩
        ["open page", "click button"]).1 = [1, 2] := by
  have h := c2_all_steps_succeed
    ⟨.ok "ready", fun i => .ok ("r" ++ toString i), fun n => toString n⟩
    ["open page", "click button"] (fun i => "r" ++ toString i)
    "ready" "j1" "demo" "c" rfl (fun i _ _ => rfl)
  exact ⟨h.1, by rw [h.2.2]; rfl⟩

/-! ### Claim C3 -/

/-- C3: if setup succeeds, steps `1..k-1` succeed and `executeStep`
fails on step `k = pre.length + 1` with a non-cancellation error `c`,
the final status is `FAILED` and the final log is exactly the setup
preamble, the `"Step i"`/`"Result"` pairs for steps `1..k-1`, the
`"Step k"` entry for step k's attempt, the error entry referencing
index `k`, and the runner's `"Critical Failure"` entry — in particular
it has no entry for any step after `k`; moreover `run_debug` is called
exactly for steps `1..k` and never for a later step. -/
theorem c3_step_failure (env : ExecEnv) (pre : List String) (s : String)
    (post : List String) (res : Nat → String) (r0 c id name ca : String)
    (hsetup : env.setup = .ok r0)
    (hpre : ∀ j, 1 ≤ j → j ≤ pre.length → env.step j = .ok (res j))
    (hk : env.step (pre.length + 1) = .exc c) :
    (runFinal env (pre ++ s :: post)
        { id := id, name := name, created_at := ca }).status = "FAILED" ∧
    (runFinal env (pre ++ s :: post)
        { id := id, name := name, created_at := ca }).logs =
      fmtTs (env.ts 0) "Initializing Agent & Tools..." ::
      fmtTs (env.ts 1) "Agent Setup Complete." ::
      fmtTs (env.ts 2)
        ("Starting execution of " ++ toString (pre ++ s :: post).length ++ " steps.") ::
      (specStepLogs env res pre 1 3 ++
        [fmtTs (env.ts (3 + 2 * pre.length))
           ("Step " ++ toString (pre.length + 1) ++ ": " ++ s),
         fmtTs (env.ts (3 + 2 * pre.length + 1))
           ("❌ Error on step " ++ toString (pre.length + 1) ++ ": " ++ c),
         "💥 Critical Failure: " ++ c]) ∧
    callsOf (JobManager.runJob env (pre ++ s :: post)).1 =
      List.range' 1 (pre.length + 1) := by
  have e1 : 1 + pre.length = pre.length + 1 := by omega
  have hk' : env.step (1 + pre.length) = .exc c := by rw [e1]; exact hk
  have hloop := runStepsLoop_exc env res c pre s post 1 3
    (fun j h1 h2 => hpre j h1 (by omega)) hk'
  rw [e1] at hloop
  have hr : (WebAgent.runStepsLoop env (pre ++ s :: post) 1 3).2.2 = some (.exc c) := by
    rw [hloop]
  have htr := runJob_eq_step_exc env (pre ++ s :: post) r0 c hsetup hr
  refine ⟨?_, ?_, ?_⟩
  · rw [runFinal, htr]
    simp only [← List.cons_append]
    exact status_applyEvents_concat_set_log _ _ _ _
  · rw [runFinal, htr, logs_applyEvents, hloop]
    simp [logsOf_pairEvents]
  · rw [htr, hloop]
    simp [callsOf_pairEvents, List.range'_concat, e1]

/-- Concrete instance of `c3_step_failure`: the spec's §8 example
(steps `["a","b","c"]`, step 2 failing with cause `"timeout"`) ends
`FAILED` with only steps 1 and 2 ever attempted. -/
theorem c3_step_failure_witness :
    (runFinal
        ⟨.ok "ready",
         fun i => if i = 2 then .exc "timeout" else .ok ("r" ++ toString i),
         fun n => toString n⟩
        (["a"] ++ "b" :: ["c"])
        { id := "j1", name := "demo", created_at := "c" }).status = "FAILED" ∧
    callsOf (JobManager.runJob
        ⟨.ok "ready",
         fun i => if i = 2 then .exc "timeout" else .ok ("r" ++ toString i),
         fun n => toString n⟩
        (["a"] ++ "b" :: ["c"])).1 = [1, 2] := by
  have h := c3_step_failure
    ⟨.ok "ready",
     fun i => if i = 2 then .exc "timeout" else .ok ("r" ++ toString i),
     fun n => toString n⟩
    ["a"] "b" ["c"] (fun i => "r" ++ toString i) "ready" "timeout" "j1" "demo" "c"
    rfl
    (fun j h1 h2 => by
      have hj : j = 1 := by simpa using Nat.le_antisymm h2 h1
      subst hj; rfl)
    rfl
  exact ⟨h.1, by rw [h.2.2]; rfl⟩

/-! ### Claim C4 -/

/-- A trivial environment (everything succeeds instantly). -/
def envTriv : ExecEnv := ⟨.ok "", fun _ => .ok "", fun _ => "00:00:00"⟩

/-- Manager after one `create_job`. -/
def c4mgr1 : JobManager := (JobManager.create_job ⟨[]⟩ "j1" "00:00:00" "demo" ["a"]).1

/-- ... after `cancel_job` is invoked while the job is still `PENDING`
(before its task first ran). -/
def c4mgr2 : JobManager := (JobManager.cancel_job c4mgr1 "j1").1

/-- ... after the cancelled task settles: the runner body never ran. -/
def c4mgr3 : JobManager := JobManager.runTask c4mgr2 "j1" envTriv

/-- C4 is falsified on this reachable state: the job `"j1"` exists and
its status `"PENDING"` is not terminal, yet `cancel_job` returns
`false` — because the source tests `task.done()`, not the status, and
the task of a job cancelled before its runner started is done while
the status is still `PENDING`.  (The no-op direction does hold: the
state is unchanged.) -/
theorem c4_counterexample :
    (JobManager.cancel_job c4mgr1 "j1").2 = true ∧
    (JobManager.get_job c4mgr3 "j1").map (·.status) = some "PENDING" ∧
    ¬("PENDING" = "COMPLETED" ∨ "PENDING" = "FAILED" ∨ "PENDING" = "CANCELLED") ∧
    (JobManager.cancel_job c4mgr3 "j1").2 = false ∧
    (JobManager.cancel_job c4mgr3 "j1").1 = c4mgr3 := by
  decide

/-- C4 (amended): `cancel_job` returns true iff the job exists and its
runner task has not finished (the source checks `task.done()`, not a
terminal status).  When it returns false it is a no-op: the manager
state, hence every job's status and log, is unchanged.  When it
returns true its only effect is signalling the job's cancellation
handle; every other registry entry is untouched.  A finished task
coincides with a terminal status whenever the runner body actually
ran, but a job cancelled before its runner started keeps status
`PENDING` with a finished task, so the claimed status-based iff fails
(see `c4_counterexample`). -/
theorem c4_cancel_job_spec (m : JobManager) (id : String) :
    ((JobManager.cancel_job m id).2 = true ↔
      ∃ sj, dictGet m.jobs id = some sj ∧ sj.taskDone = false) ∧
    ((JobManager.cancel_job m id).2 = false → (JobManager.cancel_job m id).1 = m) ∧
    (∀ sj, dictGet m.jobs id = some sj → sj.taskDone = false →
      dictGet (JobManager.cancel_job m id).1.jobs id =
        some { sj with cancelRequested := true } ∧
      (∀ k, ¬k = id → dictGet (JobManager.cancel_job m id).1.jobs k = dictGet m.jobs k)) := by
  rcases hg : dictGet m.jobs id with _ | sj
  case none =>
    refine ⟨⟨fun h => ?_, fun hex => ?_⟩, fun _ => ?_, fun sj hsj _ => ?_⟩
    · simp [JobManager.cancel_job, hg] at h
    · obtain ⟨sj, hsj, _⟩ := hex
      exact Option.noConfusion hsj
    · simp [JobManager.cancel_job, hg]
    · exact Option.noConfusion hsj
  case some =>
    by_cases hd : sj.taskDone = true
    · refine ⟨⟨fun h => ?_, fun hex => ?_⟩, fun _ => ?_, fun sj' hsj' hdone' => ?_⟩
      · simp [JobManager.cancel_job, hg, hd] at h
      · obtain ⟨sj', hsj', hdone'⟩ := hex
        cases hsj'
        rw [hd] at hdone'
        exact Bool.noConfusion hdone'
      · simp [JobManager.cancel_job, hg, hd]
      · cases hsj'
        rw [hd] at hdone'
        exact Bool.noConfusion hdone'
    · have hcf : JobManager.cancel_job m id =
          ({ jobs := dictInsert m.jobs id { sj with cancelRequested := true } }, true) := by
        simp [JobManager.cancel_job, hg, hd]
      refine ⟨⟨fun _ => ⟨sj, rfl, by simpa using hd⟩, fun _ => ?_⟩,
        fun hfalse => ?_, fun sj' hsj' _ => ?_⟩
      · rw [hcf]
      · rw [hcf] at hfalse
        exact absurd hfalse (by simp)
      · cases hsj'
        rw [hcf]
        exact ⟨dictGet_insert_self m.jobs id _,
          fun k hk => dictGet_insert_ne m.jobs id k _ hk⟩

/-- Concrete instance of `c4_cancel_job_spec`: cancelling a fresh
`PENDING` job succeeds; cancelling the pre-start-cancelled job after
its task settled is a no-op. -/
theorem c4_cancel_job_spec_witness :
    (JobManager.cancel_job c4mgr1 "j1").2 = true ∧
    (JobManager.cancel_job c4mgr3 "j1").1 = c4mgr3 := by
  have h1 := c4_cancel_job_spec c4mgr1 "j1"
  have h3 := c4_cancel_job_spec c4mgr3 "j1"
  refine ⟨h1.1.mpr ⟨⟨⟨"j1", "demo", "PENDING", [], "00:00:00"⟩, ["a"], false, false⟩,
      by decide, rfl⟩,
    h3.2.1 (by decide)⟩

/-! ### Claim C7 -/

/-- Manager after creating a two-step job `"k1"`. -/
def c7mgr1 : JobManager := (JobManager.create_job ⟨[]⟩ "k1" "00:00:01" "wf" ["s1", "s2"]).1

/-- ... after `cancel_job` while `"k1"` is `PENDING` (task not yet
started). -/
def c7mgr2 : JobManager := (JobManager.cancel_job c7mgr1 "k1").1

/-- ... after the cancelled task settles without the runner body ever
running. -/
def c7mgr3 : JobManager := JobManager.runTask c7mgr2 "k1" envTriv

/-- C7 is falsified on this reachable state: `cancel_job` is invoked
while the job's status is still `PENDING` (before its runner started)
and returns true, yet the job's final status is `"PENDING"`, not
`"CANCELLED"` — the cancelled task never runs the runner body, so no
status write ever happens. -/
theorem c7_counterexample :
    (JobManager.get_job c7mgr1 "k1").map (·.status) = some "PENDING" ∧
    (JobManager.cancel_job c7mgr1 "k1").2 = true ∧
    (JobManager.get_job c7mgr3 "k1").map (·.status) = some "PENDING" ∧
    ¬(JobManager.get_job c7mgr3 "k1").map (·.status) = some "CANCELLED" := by
  decide

/-- C7 (amended): a job cancelled before its runner started keeps its
record (status `PENDING`, empty log) forever — its task settles
without running the body.  If instead cancellation is delivered while
the runner is executing, the final status is `CANCELLED` and never
`COMPLETED`: delivery at the `setup()` await executes no step at all,
and delivery at the await of step `k = pre.length + 1` (steps `1..k-1`
succeeding) executes exactly the calls for steps `1..k` and none
after. -/
theorem c7_cancel_timing (env : ExecEnv) :
    (∀ m id sj, dictGet m.jobs id = some sj → sj.cancelRequested = true →
        sj.taskDone = false →
        JobManager.get_job (JobManager.runTask m id env) id = some sj.job) ∧
    (∀ steps (j : Job), env.setup = .cancelled →
        (applyEvents j (JobManager.runJob env steps).1).status = "CANCELLED" ∧
        callsOf (JobManager.runJob env steps).1 = []) ∧
    (∀ (res : Nat → String) pre s post (j : Job) r0, env.setup = .ok r0 →
        (∀ i, 1 ≤ i → i ≤ pre.length → env.step i = .ok (res i)) →
        env.step (pre.length + 1) = .cancelled →
        (applyEvents j (JobManager.runJob env (pre ++ s :: post)).1).status = "CANCELLED" ∧
        callsOf (JobManager.runJob env (pre ++ s :: post)).1 =
          List.range' 1 (pre.length + 1)) := by
  refine ⟨?_, ?_, ?_⟩
  · intro m id sj hg hc hd
    rw [JobManager.runTask, hg]
    simp only [hd, hc, Bool.false_eq_true, if_false, if_true]
    rw [JobManager.get_job, dictGet_insert_self]
    rfl
  · intro steps j hs
    rw [runJob_eq_setup_cancelled env steps hs]
    exact ⟨by simp [applyEvents, applyEvent], by simp⟩
  · intro res pre s post j r0 hs hpre hk
    have e1 : 1 + pre.length = pre.length + 1 := by omega
    have hk' : env.step (1 + pre.length) = .cancelled := by rw [e1]; exact hk
    have hloop := runStepsLoop_cancelled env res pre s post 1 3
      (fun i h1 h2 => hpre i h1 (by omega)) hk'
    rw [e1] at hloop
    have hr : (WebAgent.runStepsLoop env (pre ++ s :: post) 1 3).2.2 = some .cancelled := by
      rw [hloop]
    have htr := runJob_eq_step_cancelled env (pre ++ s :: post) r0 hs hr
    constructor
    · rw [htr]
      simp only [← List.cons_append]
      exact status_applyEvents_concat_set_log _ _ _ _
    · rw [htr, hloop]
      simp [callsOf_pairEvents, List.range'_concat, e1]

/-- Concrete instance of `c7_cancel_timing`: the pre-start-cancelled
job keeps its untouched record, and a run with cancellation delivered
at the setup await ends `CANCELLED`. -/
theorem c7_cancel_timing_witness :
    JobManager.get_job (JobManager.runTask c7mgr2 "k1" envTriv) "k1" =
      some { id := "k1", name := "wf", status := "PENDING", logs := [],
             created_at := "00:00:01" } ∧
    (applyEvents { id := "x", name := "x", created_at := "t" }
        (JobManager.runJob ⟨.cancelled, fun _ => .cancelled, fun _ => "t"⟩ ["a"]).1).status =
      "CANCELLED" := by
  have h1 := c7_cancel_timing envTriv
  have h2 := c7_cancel_timing ⟨.cancelled, fun _ => .cancelled, fun _ => "t"⟩
  exact ⟨h1.1 c7mgr2 "k1"
      ⟨⟨"k1", "wf", "PENDING", [], "00:00:01"⟩, ["s1", "s2"], false, true⟩
      (by decide) rfl rfl,
    (h2.2.1 ["a"] _ rfl).1⟩

/-! ### Claim C6 -/

/-- Manager after creating `"jobA"` under the 8-character id
`"deadbeef"`. -/
def c6mgrA : JobManager := (JobManager.create_job ⟨[]⟩ "deadbeef" "09:00:00" "jobA" ["s1"]).1

/-- ... after a second `create_job` whose `str(uuid.uuid4())[:8]`
happens to produce the same 8 characters. -/
def c6mgrB : JobManager := (JobManager.create_job c6mgrA "deadbeef" "09:00:01" "jobB" ["s2"]).1

/-- C6 is falsified when the truncated uuid collides (the source
draws `str(uuid.uuid4())[:8]`, a 32-bit value, and never checks it
against the registry): the second call returns an id equal to the
first job's id, the registry ends with a single entry — the dict
assignment replaced the first job — and `list_jobs` returns only the
second job, so the first created job is not listed at all. -/
theorem c6_counterexample :
    (JobManager.create_job c6mgrA "deadbeef" "09:00:01" "jobB" ["s2"]).2 = "deadbeef" ∧
    keysOf c6mgrB = ["deadbeef"] ∧
    JobManager.list_jobs c6mgrB =
      [{ id := "deadbeef", name := "jobB", status := "PENDING", logs := [],
         created_at := "09:00:01" }] := by
  decide

/-- One `create_job` request: its oracle-generated id and `created_at`
timestamp, the workflow name and the steps. -/
structure CreateReq where
  id : String
  now : String
  name : String
  steps : List String

/-- A sequence of `create_job` calls on one manager. -/
def createMany (m : JobManager) : List CreateReq → JobManager
  | [] => m
  | r :: rs => createMany (JobManager.create_job m r.id r.now r.name r.steps).1 rs

/-- The registry entry produced by one `create_job` call. -/
def reqEntry (r : CreateReq) : String × SysJob :=
  (r.id, ⟨{ id := r.id, name := r.name, created_at := r.now }, r.steps, false, false⟩)

theorem createMany_jobs (reqs : List CreateReq) :
    ∀ m : JobManager, (∀ r ∈ reqs, r.id ∉ keysOf m) →
      (reqs.map (·.id)).Nodup →
      (createMany m reqs).jobs = m.jobs ++ reqs.map reqEntry := by
  induction reqs with
  | nil => intro m _ _; simp [createMany]
  | cons r rs ih =>
      intro m hfresh hnd
      have hnd' : (rs.map (·.id)).Nodup := (List.nodup_cons.mp (by simpa using hnd)).2
      have hrid : r.id ∉ rs.map (·.id) := (List.nodup_cons.mp (by simpa using hnd)).1
      have hne : r.id ∉ keysOf m := hfresh r (by simp)
      have hins : (JobManager.create_job m r.id r.now r.name r.steps).1.jobs
          = m.jobs ++ [reqEntry r] := by
        simp only [JobManager.create_job, reqEntry]
        exact dictInsert_fresh m.jobs r.id _ hne
      rw [createMany, ih _ ?_ hnd', hins]
      · simp
      · intro q hq
        have h1 : q.id ∉ keysOf m := hfresh q (List.mem_cons_of_mem _ hq)
        have h2 : ¬q.id = r.id := by
          intro he
          exact hrid (he ▸ List.mem_map_of_mem (·.id) hq)
        rw [keysOf, hins]
        simp [reqEntry, keysOf] at h1 ⊢
        exact ⟨h1, h2⟩

/-- C6 (amended): provided the oracle-generated 8-character ids of a
sequence of `create_job` calls happen to be pairwise distinct — which
the code relies on but does not enforce — every call appends exactly
one fresh registry entry: the registry is exactly the created jobs in
creation order under their distinct ids, nothing is replaced, and
`list_jobs` returns every created job exactly once.  On a collision
the dict assignment replaces the earlier entry
(see `c6_counterexample`). -/
theorem c6_fresh_ids (reqs : List CreateReq) (h : (reqs.map (·.id)).Nodup) :
    (createMany ⟨[]⟩ reqs).jobs = reqs.map reqEntry ∧
    keysOf (createMany ⟨[]⟩ reqs) = reqs.map (·.id) ∧
    (keysOf (createMany ⟨[]⟩ reqs)).Nodup ∧
    JobManager.list_jobs (createMany ⟨[]⟩ reqs) =
      reqs.map (fun r => { id := r.id, name := r.name, status := "PENDING",
                           logs := [], created_at := r.now }) := by
  have hj := createMany_jobs reqs ⟨[]⟩ (by simp [keysOf]) h
  have hkeys : keysOf (createMany ⟨[]⟩ reqs) = reqs.map (·.id) := by
    rw [keysOf, hj]
    simp [reqEntry, List.map_map, Function.comp]
  refine ⟨by simpa using hj, hkeys, by rw [hkeys]; exact h, ?_⟩
  rw [JobManager.list_jobs, hj]
  simp [reqEntry, List.map_map, Function.comp]

/-- Concrete instance of `c6_fresh_ids`: three creations with
distinct ids are all registered and listed once each. -/
theorem c6_fresh_ids_witness :
    keysOf (createMany ⟨[]⟩
      [⟨"a1", "t1", "jobA", ["s"]⟩, ⟨"b2", "t2", "jobB", ["s"]⟩,
       ⟨"c3", "t3", "jobC", ["s"]⟩]) = ["a1", "b2", "c3"] ∧
    (JobManager.list_jobs (createMany ⟨[]⟩
      [⟨"a1", "t1", "jobA", ["s"]⟩, ⟨"b2", "t2", "jobB", ["s"]⟩,
       ⟨"c3", "t3", "jobC", ["s"]⟩])).length = 3 := by
  have h := c6_fresh_ids
    [⟨"a1", "t1", "jobA", ["s"]⟩, ⟨"b2", "t2", "jobB", ["s"]⟩,
     ⟨"c3", "t3", "jobC", ["s"]⟩] (by decide)
  exact ⟨by rw [h.2.1]; rfl, by rw [h.2.2.2]; rfl⟩

/-! ### Claim C8 -/

/-- A log entry that reports an error: it mentions the runner's
critical-failure marker or the step-error marker (a generous reading
of "the triggering error entry"). -/
def isErrorEntry (e : String) : Bool := e.data.contains '💥' || e.data.contains '❌'

/-- A log entry that mentions the cancellation-notice marker. -/
def isCancelNotice (e : String) : Bool := e.data.contains '⚠'

/-- The property claimed by C8, as stated: at every observable point
of the runner's execution (i.e. after every prefix of its write
trace), a job holding terminal status `FAILED` (resp. `CANCELLED`)
already has an error entry (resp. a cancellation notice) in its log. -/
def logBeforeTerminal (j : Job) (es : List Event) : Prop :=
  ∀ k, ((applyEvents j (es.take k)).status = "FAILED" →
          (applyEvents j (es.take k)).logs.any isErrorEntry = true) ∧
       ((applyEvents j (es.take k)).status = "CANCELLED" →
          (applyEvents j (es.take k)).logs.any isCancelNotice = true)

/-- C8 is falsified by a setup failure: `_run_job` writes
`status = "FAILED"` *before* appending the `"💥 Critical Failure"`
entry, so after the first four events of the trace the job is `FAILED`
while its log holds only the setup entry and no error entry at all
(even under the generous `isErrorEntry`). -/
theorem c8_counterexample :
    ¬ logBeforeTerminal { id := "j", name := "n", created_at := "t" }
        (JobManager.runJob ⟨.exc "boom", fun _ => .ok "", fun _ => "00:00:00"⟩ []).1 := by
  intro h
  have h4 := (h 4).1 (by decide)
  revert h4
  decide

theorem statusFree_getElem (es : List Event) (h : statusWrites es = []) :
    ∀ (k : Nat) (s : String), ¬es[k]? = some (Event.setStatus s) := by
  induction es with
  | nil => intro k s hk; simp at hk
  | cons e es ih =>
      intro k s hk
      cases e with
      | setStatus s0 => simp at h
      | logAppend m =>
          cases k with
          | zero => simp at hk
          | succ k => exact ih (by simpa using h) k s (by simpa using hk)
      | callSetup =>
          cases k with
          | zero => simp at hk
          | succ k => exact ih (by simpa using h) k s (by simpa using hk)
      | callStep i st =>
          cases k with
          | zero => simp at hk
          | succ k => exact ih (by simpa using h) k s (by simpa using hk)

theorem trace_set_pos2 (mid : List Event) (hmid : statusWrites mid = [])
    (t msg : String) (k : Nat) (s' : String)
    (h : (Event.setStatus "RUNNING" :: (mid ++ [Event.setStatus t, Event.logAppend msg]))[k]? =
      some (.setStatus s')) :
    (k = 0 ∧ s' = "RUNNING") ∨ (k = mid.length + 1 ∧ s' = t) := by
  cases k with
  | zero =>
      left
      refine ⟨rfl, ?_⟩
      simp only [List.getElem?_cons_zero, Option.some.injEq, Event.setStatus.injEq] at h
      exact h.symm
  | succ k =>
      right
      have h' : (mid ++ [Event.setStatus t, Event.logAppend msg])[k]? =
          some (.setStatus s') := by simpa using h
      rcases lt_or_ge k mid.length with hlt | hge
      · rw [List.getElem?_append, if_pos hlt] at h'
        exact absurd h' (statusFree_getElem mid hmid k s')
      · rw [List.getElem?_append, if_neg (not_lt.mpr hge)] at h'
        rcases hke : k - mid.length with _ | k2
        · rw [hke] at h'
          simp only [List.getElem?_cons_zero, Option.some.injEq, Event.setStatus.injEq] at h'
          exact ⟨by omega, h'.symm⟩
        · rw [hke] at h'
          cases k2 with
          | zero => simp at h'
          | succ k3 => simp at h'

theorem trace_set_pos1 (mid : List Event) (hmid : statusWrites mid = [])
    (t : String) (k : Nat) (s' : String)
    (h : (Event.setStatus "RUNNING" :: (mid ++ [Event.setStatus t]))[k]? =
      some (.setStatus s')) :
    (k = 0 ∧ s' = "RUNNING") ∨ (k = mid.length + 1 ∧ s' = t) := by
  cases k with
  | zero =>
      left
      refine ⟨rfl, ?_⟩
      simp only [List.getElem?_cons_zero, Option.some.injEq, Event.setStatus.injEq] at h
      exact h.symm
  | succ k =>
      right
      have h' : (mid ++ [Event.setStatus t])[k]? = some (.setStatus s') := by simpa using h
      rcases lt_or_ge k mid.length with hlt | hge
      · rw [List.getElem?_append, if_pos hlt] at h'
        exact absurd h' (statusFree_getElem mid hmid k s')
      · rw [List.getElem?_append, if_neg (not_lt.mpr hge)] at h'
        rcases hke : k - mid.length with _ | k2
        · rw [hke] at h'
          simp only [List.getElem?_cons_zero, Option.some.injEq, Event.setStatus.injEq] at h'
          exact ⟨by omega, h'.symm⟩
        · rw [hke] at h'
          cases k2 with
          | zero => simp at h'
          | succ k3 => simp at h'

theorem pair_adjacent (mid : List Event) (hmid : statusWrites mid = [])
    (t msg : String) (k : Nat) (t' : String) (hR : ¬t' = "RUNNING")
    (h : (Event.setStatus "RUNNING" :: (mid ++ [Event.setStatus t, Event.logAppend msg]))[k]? =
      some (.setStatus t')) :
    t' = t ∧
    (Event.setStatus "RUNNING" :: (mid ++ [Event.setStatus t, Event.logAppend msg]))[k+1]? =
      some (.logAppend msg) ∧
    (Event.setStatus "RUNNING" :: (mid ++ [Event.setStatus t, Event.logAppend msg])).length =
      k + 2 := by
  rcases trace_set_pos2 mid hmid t msg k t' h with ⟨hk0, hsr⟩ | ⟨hk, hst⟩
  · exact absurd hsr hR
  · subst hk
    refine ⟨hst, ?_, ?_⟩
    · rw [show mid.length + 1 + 1 = (mid.length + 1) + 1 from rfl, List.getElem?_cons_succ,
        List.getElem?_append, if_neg (by omega)]
      simp
    · simp only [List.length_cons, List.length_append, List.length_nil]

theorem no_set_in_tail1 (mid : List Event) (hmid : statusWrites mid = [])
    (t : String) (k : Nat) (t' : String) (hR : ¬t' = "RUNNING") (ht : ¬t' = t)
    (h : (Event.setStatus "RUNNING" :: (mid ++ [Event.setStatus t]))[k]? =
      some (.setStatus t')) : False := by
  rcases trace_set_pos1 mid hmid t k t' h with ⟨_, hsr⟩ | ⟨_, hst⟩
  · exact hR hsr
  · exact ht hst

theorem list5_shape (a b c d e : Event) : [a, b, c, d, e] = a :: ([b, c] ++ [d, e]) := rfl

theorem cons5_append (a b c d e : Event) (L T : List Event) :
    a :: b :: c :: d :: e :: (L ++ T) = a :: ((b :: c :: d :: e :: L) ++ T) := rfl

/-- C8 (amended): the terminal status write does *not* come after the
error entry — `_run_job` writes `FAILED`/`CANCELLED` first and then
appends the entry (see `c8_counterexample`) — but the two form an
adjacent pair: whenever the trace writes `FAILED` at position `k`, the
very next event appends the `"💥 Critical Failure"` entry, whenever it
writes `CANCELLED`, the very next event appends the cancellation
notice, and in both cases these are the final two events of the
trace, so at every point from the next event on the terminal status
coexists with its log entry (and there is no suspension point between
the two writes). -/
theorem c8_terminal_write_then_entry (env : ExecEnv) (steps : List String) (k : Nat) :
    ((JobManager.runJob env steps).1[k]? = some (.setStatus "FAILED") →
      ∃ c, (JobManager.runJob env steps).1[k+1]? =
          some (.logAppend ("💥 Critical Failure: " ++ c)) ∧
        (JobManager.runJob env steps).1.length = k + 2) ∧
    ((JobManager.runJob env steps).1[k]? = some (.setStatus "CANCELLED") →
      (JobManager.runJob env steps).1[k+1]? =
          some (.logAppend "⚠️ Job was cancelled by user.") ∧
        (JobManager.runJob env steps).1.length = k + 2) := by
  cases hs : env.setup with
  | exc c =>
      rw [runJob_eq_setup_exc env steps c hs, list5_shape]
      constructor
      · intro h
        obtain ⟨-, hnext, hlen⟩ := pair_adjacent _ (by rfl) _ _ k _ (by decide) h
        exact ⟨c, hnext, hlen⟩
      · intro h
        obtain ⟨het, -, -⟩ := pair_adjacent _ (by rfl) _ _ k _ (by decide) h
        exact absurd het (by decide)
  | cancelled =>
      rw [runJob_eq_setup_cancelled env steps hs, list5_shape]
      constructor
      · intro h
        obtain ⟨het, -, -⟩ := pair_adjacent _ (by rfl) _ _ k _ (by decide) h
        exact absurd het (by decide)
      · intro h
        obtain ⟨-, hnext, hlen⟩ := pair_adjacent _ (by rfl) _ _ k _ (by decide) h
        exact ⟨hnext, hlen⟩
  | ok r0 =>
      rcases hr : (WebAgent.runStepsLoop env steps 1 3).2.2 with _ | pe
      · rw [runJob_eq_completed env steps r0 hs hr, cons5_append]
        have hmid : statusWrites (Event.logAppend (fmtTs (env.ts 0) "Initializing Agent & Tools...") ::
            Event.callSetup ::
            Event.logAppend (fmtTs (env.ts 1) "Agent Setup Complete.") ::
            Event.logAppend (fmtTs (env.ts 2)
              ("Starting execution of " ++ toString steps.length ++ " steps.")) ::
            (WebAgent.runStepsLoop env steps 1 3).1) = [] := by
          simp [statusWrites_runStepsLoop]
        constructor
        · intro h
          exact (no_set_in_tail1 _ hmid _ k _ (by decide) (by decide) h).elim
        · intro h
          exact (no_set_in_tail1 _ hmid _ k _ (by decide) (by decide) h).elim
      · cases pe with
        | exc c =>
            rw [runJob_eq_step_exc env steps r0 c hs hr, cons5_append]
            have hmid : statusWrites (Event.logAppend (fmtTs (env.ts 0) "Initializing Agent & Tools...") ::
                Event.callSetup ::
                Event.logAppend (fmtTs (env.ts 1) "Agent Setup Complete.") ::
                Event.logAppend (fmtTs (env.ts 2)
                  ("Starting execution of " ++ toString steps.length ++ " steps.")) ::
                (WebAgent.runStepsLoop env steps 1 3).1) = [] := by
              simp [statusWrites_runStepsLoop]
            constructor
            · intro h
              obtain ⟨-, hnext, hlen⟩ := pair_adjacent _ hmid _ _ k _ (by decide) h
              exact ⟨c, hnext, hlen⟩
            · intro h
              obtain ⟨het, -, -⟩ := pair_adjacent _ hmid _ _ k _ (by decide) h
              exact absurd het (by decide)
        | cancelled =>
            rw [runJob_eq_step_cancelled env steps r0 hs hr, cons5_append]
            have hmid : statusWrites (Event.logAppend (fmtTs (env.ts 0) "Initializing Agent & Tools...") ::
                Event.callSetup ::
                Event.logAppend (fmtTs (env.ts 1) "Agent Setup Complete.") ::
                Event.logAppend (fmtTs (env.ts 2)
                  ("Starting execution of " ++ toString steps.length ++ " steps.")) ::
                (WebAgent.runStepsLoop env steps 1 3).1) = [] := by
              simp [statusWrites_runStepsLoop]
            constructor
            · intro h
              obtain ⟨het, -, -⟩ := pair_adjacent _ hmid _ _ k _ (by decide) h
              exact absurd het (by decide)
            · intro h
              obtain ⟨-, hnext, hlen⟩ := pair_adjacent _ hmid _ _ k _ (by decide) h
              exact ⟨hnext, hlen⟩

/-- Concrete instance of `c8_terminal_write_then_entry`: in a
setup-failure run the `FAILED` write sits at position 3 and the
critical-failure entry immediately follows it, closing the trace. -/
theorem c8_terminal_write_then_entry_witness :
    (∃ c, (JobManager.runJob ⟨.exc "boom", fun _ => .ok "", fun _ => "00:00:00"⟩ []).1[4]? =
        some (.logAppend ("💥 Critical Failure: " ++ c)) ∧
      (JobManager.runJob ⟨.exc "boom", fun _ => .ok "", fun _ => "00:00:00"⟩ []).1.length = 5) := by
  have h := c8_terminal_write_then_entry
    ⟨.exc "boom", fun _ => .ok "", fun _ => "00:00:00"⟩ [] 3
  exact h.1 (by decide)

/-! ### Claim C9 -/

/-- A log entry carrying the runner's `"💥 Critical Failure: "`
prefix — the entry appended by `_run_job`'s `except Exception`
handler.  `WebAgent.log` entries always start with `'['`, so no
timestamped entry matches, whatever the timestamp oracle returns. -/
def hasCrit (e : String) : Bool := "💥 Critical Failure: ".data.isPrefixOf e.data

theorem isPrefixOf_append_self (l l' : List Char) : l.isPrefixOf (l ++ l') = true := by
  induction l with
  | nil => simp [List.isPrefixOf]
  | cons a l ih => simp [List.isPrefixOf, ih]

theorem hasCrit_fmtTs (t m : String) : hasCrit (fmtTs t m) = false := by
  have hd : (fmtTs t m).data = '[' :: (t.data ++ ("] ".data ++ m.data)) := by
    simp [fmtTs, String.data_append]
  rw [hasCrit, hd]
  rfl

theorem hasCrit_notice : hasCrit "⚠️ Job was cancelled by user." = false := by decide

theorem hasCrit_crit (c : String) : hasCrit ("💥 Critical Failure: " ++ c) = true := by
  rw [hasCrit, String.data_append]
  exact isPrefixOf_append_self _ _

theorem logsOf_runStepsLoop_fmt (env : ExecEnv) (rest : List String) :
    ∀ i n, ∀ m ∈ logsOf (WebAgent.runStepsLoop env rest i n).1,
      ∃ t msg, m = fmtTs t msg := by
  induction rest with
  | nil =>
      intro i n m hm
      simp [WebAgent.runStepsLoop] at hm
      exact ⟨_, _, hm⟩
  | cons s rest ih =>
      intro i n m hm
      cases hst : env.step i with
      | ok r =>
          simp [WebAgent.runStepsLoop, hst] at hm
          rcases hm with hm | hm | hm
          · exact ⟨_, _, hm⟩
          · exact ⟨_, _, hm⟩
          · exact ih (i+1) (n+2) m (by simpa [logsOf] using hm)
      | exc c =>
          simp [WebAgent.runStepsLoop, hst] at hm
          rcases hm with hm | hm
          · exact ⟨_, _, hm⟩
          · exact ⟨_, _, hm⟩
      | cancelled =>
          simp [WebAgent.runStepsLoop, hst] at hm
          exact ⟨_, _, hm⟩

theorem any_hasCrit_false_of_fmt (L : List String)
    (h : ∀ m ∈ L, ∃ t msg, m = fmtTs t msg) : L.any hasCrit = false := by
  rw [List.any_eq_false]
  intro x hx
  obtain ⟨t, msg, rfl⟩ := h x hx
  simp [hasCrit_fmtTs]

/-- The property claimed by C9, as stated: the final log holds a
`"Critical Failure"` entry exactly when executor `setup()` failed
(so in particular never after a mere step failure). -/
def c9Claim (env : ExecEnv) (steps : List String) (j : Job) : Prop :=
  ((runFinal env steps j).logs.any hasCrit = true) ↔ (∃ c, env.setup = CallOutcome.exc c)

/-- C9 is falsified by a step failure: with setup succeeding and step 1
failing with `"boom"`, `run_steps` logs the step error and re-raises,
and `_run_job`'s generic `except Exception` handler *also* appends
`"💥 Critical Failure: boom"` — so a Critical Failure entry appears
although setup never failed. -/
theorem c9_counterexample :
    ¬ c9Claim ⟨.ok "", fun _ => .exc "boom", fun _ => "00:00:00"⟩ ["a"]
        { id := "j", name := "n", created_at := "t" } := by
  intro h
  obtain ⟨c, hc⟩ := h.mp (by decide)
  exact CallOutcome.noConfusion hc

/-- C9 (amended): a `"💥 Critical Failure: <cause>"` entry is appended
exactly when the run ends `FAILED` — that is, when `_run_job` catches
any non-cancellation error, whether from `setup()` or re-raised from a
step.  A setup failure makes it the only entry after the setup log;
a failure of step `k = pre.length + 1` appends the
`"❌ Error on step k"` entry *and also* the Critical Failure entry
(contrary to the claim's "never"). -/
theorem c9_critical_failure (env : ExecEnv) (steps : List String) (id name ca : String) :
    ((runFinal env steps { id := id, name := name, created_at := ca }).logs.any hasCrit = true ↔
      (runFinal env steps { id := id, name := name, created_at := ca }).status = "FAILED") ∧
    (∀ c, env.setup = .exc c →
      (runFinal env steps { id := id, name := name, created_at := ca }).logs =
        [fmtTs (env.ts 0) "Initializing Agent & Tools...", "💥 Critical Failure: " ++ c]) ∧
    (∀ (res : Nat → String) (pre : List String) (s : String) (post : List String) (r0 c : String),
      env.setup = .ok r0 →
      (∀ i, 1 ≤ i → i ≤ pre.length → env.step i = .ok (res i)) →
      env.step (pre.length + 1) = .exc c →
      fmtTs (env.ts (3 + 2 * pre.length + 1))
          ("❌ Error on step " ++ toString (pre.length + 1) ++ ": " ++ c) ∈
        (runFinal env (pre ++ s :: post) { id := id, name := name, created_at := ca }).logs ∧
      ("💥 Critical Failure: " ++ c) ∈
        (runFinal env (pre ++ s :: post) { id := id, name := name, created_at := ca }).logs) := by
  refine ⟨?_, ?_, ?_⟩
  · cases hs : env.setup with
    | exc c =>
        have htr := runJob_eq_setup_exc env steps c hs
        refine iff_of_true ?_ ?_
        · rw [runFinal, htr, logs_applyEvents]
          simp [hasCrit_crit]
        · rw [runFinal, htr]
          simp [applyEvents, applyEvent]
    | cancelled =>
        have htr := runJob_eq_setup_cancelled env steps hs
        refine iff_of_false ?_ ?_
        · rw [runFinal, htr, logs_applyEvents]
          simp [hasCrit_fmtTs, hasCrit_notice]
        · rw [runFinal, htr]
          simp [applyEvents, applyEvent]
    | ok r0 =>
        have hL := any_hasCrit_false_of_fmt _ (logsOf_runStepsLoop_fmt env steps 1 3)
        rcases hr : (WebAgent.runStepsLoop env steps 1 3).2.2 with _ | pe
        · have htr := runJob_eq_completed env steps r0 hs hr
          refine iff_of_false ?_ ?_
          · rw [runFinal, htr, logs_applyEvents]
            simp [hasCrit_fmtTs, List.any_append, hL]
          · rw [runFinal, htr]
            simp only [← List.cons_append]
            rw [status_applyEvents_concat_set]
            decide
        · cases pe with
          | exc c =>
              have htr := runJob_eq_step_exc env steps r0 c hs hr
              refine iff_of_true ?_ ?_
              · rw [runFinal, htr, logs_applyEvents]
                simp [hasCrit_crit, List.any_append]
              · rw [runFinal, htr]
                simp only [← List.cons_append]
                exact status_applyEvents_concat_set_log _ _ _ _
          | cancelled =>
              have htr := runJob_eq_step_cancelled env steps r0 hs hr
              refine iff_of_false ?_ ?_
              · rw [runFinal, htr, logs_applyEvents]
                simp [hasCrit_fmtTs, hasCrit_notice, List.any_append, hL]
              · rw [runFinal, htr]
                simp only [← List.cons_append]
                rw [status_applyEvents_concat_set_log]
                decide
  · intro c hs
    rw [runFinal, runJob_eq_setup_exc env steps c hs, logs_applyEvents]
    simp
  · intro res pre s post r0 c hs hpre hk
    have e1 : 1 + pre.length = pre.length + 1 := by omega
    have hk' : env.step (1 + pre.length) = .exc c := by rw [e1]; exact hk
    have hloop := runStepsLoop_exc env res c pre s post 1 3
      (fun j h1 h2 => hpre j h1 (by omega)) hk'
    rw [e1] at hloop
    have hr : (WebAgent.runStepsLoop env (pre ++ s :: post) 1 3).2.2 = some (.exc c) := by
      rw [hloop]
    have htr := runJob_eq_step_exc env (pre ++ s :: post) r0 c hs hr
    rw [runFinal, htr, logs_applyEvents, hloop]
    constructor
    · simp
    · simp

/-- Concrete instance of `c9_critical_failure`: a setup failure with
cause `"boom"` yields exactly the setup entry plus the Critical
Failure entry. -/
theorem c9_critical_failure_witness :
    (runFinal ⟨.exc "boom", fun _ => .ok "", fun _ => "00:00:00"⟩ ["a"]
        { id := "j", name := "n", created_at := "t" }).logs =
      [fmtTs "00:00:00" "Initializing Agent & Tools...", "💥 Critical Failure: " ++ "boom"] := by
  have h := c9_critical_failure ⟨.exc "boom", fun _ => .ok "", fun _ => "00:00:00"⟩
    ["a"] "j" "n" "t"
  exact h.2.1 "boom" rfl

/-! ### Claim C10 -/

/-- C10: `get_job` and `list_jobs` are pure reads — their source
bodies contain no assignment, so their state effect is the identity
and the registry and every job's fields (`id`, `name`, `status`,
`logs`, `created_at`) are unchanged by them.  No operation of the core
ever removes a registry entry: every existing key survives every
operation, `cancel_job` and a running task leave the key set exactly
unchanged, and `create_job` is the only operation that changes it —
by appending the fresh id (or replacing in place on an id collision,
never removing a key).  `get_job` on an unknown id returns `none`
rather than raising. -/
theorem c10_registry_frame (m : JobManager) :
    (∀ id, applyOp m (.get id) = m) ∧
    (applyOp m .listAll = m) ∧
    (∀ id, keysOf (applyOp m (.cancel id)) = keysOf m) ∧
    (∀ id env, keysOf (applyOp m (.run id env)) = keysOf m) ∧
    (∀ id now name steps,
        keysOf (applyOp m (.create id now name steps)) =
          if id ∈ keysOf m then keysOf m else keysOf m ++ [id]) ∧
    (∀ op k, k ∈ keysOf m → k ∈ keysOf (applyOp m op)) ∧
    (∀ id, id ∉ keysOf m → JobManager.get_job m id = none) := by
  have hcancel : ∀ id, keysOf ((JobManager.cancel_job m id).1) = keysOf m := by
    intro id
    rcases hg : dictGet m.jobs id with _ | sj
    · simp [JobManager.cancel_job, hg]
    · by_cases hd : sj.taskDone = true
      · simp [JobManager.cancel_job, hg, hd]
      · have hmem : id ∈ m.jobs.map (·.1) := dictGet_some_mem m.jobs id sj hg
        have hcf : (JobManager.cancel_job m id).1 =
            ⟨dictInsert m.jobs id { sj with cancelRequested := true }⟩ := by
          simp [JobManager.cancel_job, hg, hd]
        rw [hcf]
        simp only [keysOf]
        rw [keys_dictInsert, if_pos hmem]
  have hrun : ∀ id env, keysOf (JobManager.runTask m id env) = keysOf m := by
    intro id env
    rcases hg : dictGet m.jobs id with _ | sj
    · simp [JobManager.runTask, hg]
    · have hmem : id ∈ m.jobs.map (·.1) := dictGet_some_mem m.jobs id sj hg
      by_cases hd : sj.taskDone = true
      · simp [JobManager.runTask, hg, hd]
      · by_cases hc : sj.cancelRequested = true
        · have hcf : JobManager.runTask m id env =
              ⟨dictInsert m.jobs id { sj with taskDone := true }⟩ := by
            simp [JobManager.runTask, hg, hd, hc]
          rw [hcf]
          simp only [keysOf]
          rw [keys_dictInsert, if_pos hmem]
        · have hcf : JobManager.runTask m id env =
              ⟨dictInsert m.jobs id
                { sj with job := applyEvents sj.job (JobManager.runJob env sj.steps).1,
                          taskDone := true }⟩ := by
            simp [JobManager.runTask, hg, hd, hc]
          rw [hcf]
          simp only [keysOf]
          rw [keys_dictInsert, if_pos hmem]
  have hcreate : ∀ id now name steps,
      keysOf (applyOp m (.create id now name steps)) =
        if id ∈ keysOf m then keysOf m else keysOf m ++ [id] := by
    intro id now name steps
    simp only [applyOp, JobManager.create_job, keysOf]
    exact keys_dictInsert m.jobs id _
  refine ⟨fun _ => rfl, rfl, hcancel, hrun, hcreate, ?_, ?_⟩
  · intro op k hk
    cases op with
    | create id now name steps =>
        rw [hcreate id now name steps]
        by_cases hmem : id ∈ keysOf m
        · rw [if_pos hmem]; exact hk
        · rw [if_neg hmem]; exact List.mem_append_left _ hk
    | cancel id => rw [show applyOp m (.cancel id) = (JobManager.cancel_job m id).1 from rfl,
        hcancel id]; exact hk
    | run id env => rw [show applyOp m (.run id env) = JobManager.runTask m id env from rfl,
        hrun id env]; exact hk
    | get id => exact hk
    | listAll => exact hk
  · intro id hid
    rw [JobManager.get_job, dictGet_none_of_not_mem m.jobs id hid]
    rfl

/-- Concrete instance of `c10_registry_frame`: reads are the identity
on a concrete one-job manager and an unknown id yields `none`. -/
theorem c10_registry_frame_witness :
    applyOp c6mgrA (.get "zz") = c6mgrA ∧
    JobManager.get_job c6mgrA "zz" = none ∧
    keysOf (applyOp c6mgrA (.cancel "deadbeef")) = keysOf c6mgrA := by
  have h := c10_registry_frame c6mgrA
  exact ⟨h.1 "zz", h.2.2.2.2.2.2 "zz" (by decide), h.2.2.1 "deadbeef"⟩
